import Mathlib

/-!
# BeOS / Haiku platform layer of PhysicsFS (`src/platform_beos.cpp`)

A shallow embedding of the platform routines and the properties of their
specification.

Conventions of the embedding.

* A C string is the list of its characters up to, and without, the
  terminating NUL (`CString`).  `strcmp(a, b) == 0` is equality of the two
  lists.  A `char` array (a buffer) is a list of characters that may hold NULs.
* Everything the routines ask the operating system is an explicit argument:
  the mounted volumes in the order `BVolumeRoster` yields them, the device
  tree as `BDirectory` / `BEntry` present it, the image list of the team.
  Status codes are kept as success / failure, a failing call being `none`
  or `false`.
* `tryDir` calls an arbitrary callback; it is modelled by threading the
  callback's state `data` through the calls.
* Constants of the OS headers (`B_CD`, `B_FILE_NAME_LENGTH`, `B_APP_IMAGE`)
  are arguments.
-/

namespace PhysFS.BeOS

/-! ## C strings and buffers -/

/-- A C string: its characters before the terminating NUL. -/
abbrev CString := List Char

/-- The NUL character. -/
def NUL : Char := Char.ofNat 0

/-- The C string a `char *` into a buffer denotes: the characters before the
first NUL. -/
def cstr (buf : List Char) : CString :=
  buf.takeWhile (fun c => c != NUL)

/-- Model of `strncpy(dst, src, n)`: the first `n` characters of `dst` become the
first `n` characters of `src`, padded with NULs when `src` is shorter than `n`;
the rest of `dst` is left as it was. -/
def strncpy (dst : List Char) (src : CString) (n : Nat) : List Char :=
  src.take n ++ List.replicate (n - src.length) NUL ++ dst.drop n

/-! ## Mounted volumes and `getMountPoint` -/

/-- One mounted volume, as `getMountPoint` sees it through `BVolumeRoster`. -/
structure Volume where
  /-- Content of `fsinfo.device_name` after `fs_stat_dev(vol.Device(), &fsinfo)`. -/
  device_name : CString
  /-- Whether `vol.GetRootDirectory(&directory) >= B_OK`. -/
  GetRootDirectory : Bool
  /-- Whether `directory.GetEntry(&entry) >= B_OK`. -/
  GetEntry : Bool
  /-- Whether `entry.GetPath(&path) >= B_OK`. -/
  GetPath : Bool
  /-- Value of `path.Path()`, `none` being `NULL`. -/
  Path : Option CString
deriving DecidableEq

/-- Model of `getMountPoint(devname, buf, bufsize)`; `mounts` is what
`mounts.Rewind()` followed by repeated `mounts.GetNextVolume(&vol)` yields.
The result is the buffer as written (`some`), or `NULL` (`none`).  The routine
is called with `bufsize >= 1` (the size of an array); for `bufsize = 0` the C
expression `bufsize-1` wraps around, which is not modelled. -/
def getMountPoint (mounts : List Volume) (devname : CString) (buf : List Char)
    (bufsize : Nat) : Option (List Char) :=
  match mounts with
  | [] => none
  | vol :: rest =>
    if devname = vol.device_name then
      if vol.GetRootDirectory = false ∨ vol.GetEntry = false ∨ vol.GetPath = false then
        none
      else
        match vol.Path with
        | none => none
        | some str => some ((strncpy buf str (bufsize - 1)).set (bufsize - 1) NUL)
    else
      getMountPoint rest devname buf bufsize

/-! ## The device tree and `tryDir` -/

/-- What probing a device node gives: `open(name, O_RDONLY)` may fail, then
`ioctl(devfd, B_GET_GEOMETRY, ...)` may fail, else a geometry is reported. -/
inductive Device where
  /-- Case `devfd < 0`. -/
  | openFails
  /-- Case `rc < 0`. -/
  | ioctlFails
  /-- Case of a reported geometry, with its `g.device_type`. -/
  | geometry (device_type : Nat)
deriving DecidableEq

mutual
/-- What `dir.SetTo(d)` finds at a path. -/
inductive Dir where
  /-- Case `dir.InitCheck() != B_NO_ERROR`. -/
  | bad
  /-- The entries `dir.GetNextEntry(&entry)` yields after `dir.Rewind()`. -/
  | ok (entries : Entries)
/-- The entries of one directory, in enumeration order. -/
inductive Entries where
  | nil
  | cons (entry : Entry) (rest : Entries)
/-- One directory entry.  `path` is `entry.GetPath(&path)` then `path.Path()`
(`none` when `GetPath` fails) and `e_name` is `e.name` after
`entry.GetRef(&e)` (`none` when `GetRef` fails). -/
inductive Entry where
  /-- An entry with `entry.IsDirectory()`; `sub` is the directory at its path. -/
  | directory (path : Option CString) (e_name : Option CString) (sub : Dir)
  /-- Any other entry; `dev` is what probing the node at its path gives. -/
  | file (path : Option CString) (e_name : Option CString) (dev : Device)
end

mutual
/-- Model of `tryDir(d, callback, data)`; `d` is what the OS has at that path,
and the recursive call on the path of a directory entry is the call on the
directory below that entry.  The result is `data` after the callbacks.
The array `mntpnt` is not initialised in the source; `getMountPoint` overwrites
all of it when it succeeds (`getMountPoint_buf_irrelevant`), so the model
starts it filled with NULs.  `close(devfd)` leaves no trace in the model. -/
def tryDir {σ : Type} (B_CD B_FILE_NAME_LENGTH : Nat) (mounts : List Volume)
    (callback : σ → CString → σ) (data : σ) : Dir → σ
  | .bad => data
  | .ok entries => tryDirLoop B_CD B_FILE_NAME_LENGTH mounts callback data entries
/-- The `while (dir.GetNextEntry(&entry) >= 0)` loop of `tryDir`. -/
def tryDirLoop {σ : Type} (B_CD B_FILE_NAME_LENGTH : Nat) (mounts : List Volume)
    (callback : σ → CString → σ) (data : σ) : Entries → σ
  | .nil => data
  | .cons (.directory path e_name sub) rest =>
    match path with
    | none => tryDirLoop B_CD B_FILE_NAME_LENGTH mounts callback data rest
    | some _ =>
      match e_name with
      | none => tryDirLoop B_CD B_FILE_NAME_LENGTH mounts callback data rest
      | some e_name =>
        if e_name ≠ "floppy".toList then
          tryDirLoop B_CD B_FILE_NAME_LENGTH mounts callback
            (tryDir B_CD B_FILE_NAME_LENGTH mounts callback data sub) rest
        else
          tryDirLoop B_CD B_FILE_NAME_LENGTH mounts callback data rest
  | .cons (.file path e_name dev) rest =>
    match path with
    | none => tryDirLoop B_CD B_FILE_NAME_LENGTH mounts callback data rest
    | some name =>
      match e_name with
      | none => tryDirLoop B_CD B_FILE_NAME_LENGTH mounts callback data rest
      | some e_name =>
        if e_name ≠ "raw".toList then
          tryDirLoop B_CD B_FILE_NAME_LENGTH mounts callback data rest
        else
          match dev with
          | .openFails => tryDirLoop B_CD B_FILE_NAME_LENGTH mounts callback data rest
          | .ioctlFails => tryDirLoop B_CD B_FILE_NAME_LENGTH mounts callback data rest
          | .geometry device_type =>
            if device_type ≠ B_CD then
              tryDirLoop B_CD B_FILE_NAME_LENGTH mounts callback data rest
            else
              match getMountPoint mounts name (List.replicate B_FILE_NAME_LENGTH NUL)
                  B_FILE_NAME_LENGTH with
              | some mntpnt =>
                tryDirLoop B_CD B_FILE_NAME_LENGTH mounts callback
                  (callback data (cstr mntpnt)) rest
              | none => tryDirLoop B_CD B_FILE_NAME_LENGTH mounts callback data rest
end

/-- Model of `__PHYSFS_platformDetectAvailableCDs(cb, data)`; `devDisk` is the
directory the OS has at `"/dev/disk"`. -/
def __PHYSFS_platformDetectAvailableCDs {σ : Type} (B_CD B_FILE_NAME_LENGTH : Nat)
    (mounts : List Volume) (devDisk : Dir) (cb : σ → CString → σ) (data : σ) : σ :=
  tryDir B_CD B_FILE_NAME_LENGTH mounts cb data devDisk

/-- The callback that appends each mount point it is handed to a log. -/
def logCallback (log : List CString) (mntpnt : CString) : List CString :=
  log ++ [mntpnt]

/-- The sequence of callback invocations of a scan: the mount points handed to
the callback, in order. -/
def callbacks (B_CD B_FILE_NAME_LENGTH : Nat) (mounts : List Volume) (devDisk : Dir) :
    List CString :=
  __PHYSFS_platformDetectAvailableCDs B_CD B_FILE_NAME_LENGTH mounts devDisk logCallback []

/-! ## Per-entry view of a scan

The mount points one entry, one entry list and one directory make the scan
hand to the callback.  These are specification-side functions; `tryDir` is
related to them by `tryDir_eq_foldl`. -/

/-- The string `tryDir` hands to the callback for a device node at path `name`
that passed the earlier tests: `getMountPoint` on a fresh `mntpnt`, read as a
C string. -/
def mountPointFor (B_FILE_NAME_LENGTH : Nat) (mounts : List Volume) (name : CString) :
    Option CString :=
  (getMountPoint mounts name (List.replicate B_FILE_NAME_LENGTH NUL) B_FILE_NAME_LENGTH).map cstr

/-- The callback argument a non-directory entry gives rise to when the loop
handles it: it must be named `raw`, open, report geometry of class `B_CD`, and
resolve to a mount point. -/
def Entry.callbackArg (B_CD B_FILE_NAME_LENGTH : Nat) (mounts : List Volume) :
    Entry → Option CString
  | .file (some name) (some e_name) (.geometry device_type) =>
    if e_name = "raw".toList ∧ device_type = B_CD then
      mountPointFor B_FILE_NAME_LENGTH mounts name
    else none
  | _ => none

mutual
/-- Mount points reported while scanning a directory. -/
def Dir.emitted (B_CD B_FILE_NAME_LENGTH : Nat) (mounts : List Volume) : Dir → List CString
  | .bad => []
  | .ok entries => entries.emitted B_CD B_FILE_NAME_LENGTH mounts
/-- Mount points reported while looping over a list of entries. -/
def Entries.emitted (B_CD B_FILE_NAME_LENGTH : Nat) (mounts : List Volume) :
    Entries → List CString
  | .nil => []
  | .cons entry rest =>
    entry.emitted B_CD B_FILE_NAME_LENGTH mounts ++ rest.emitted B_CD B_FILE_NAME_LENGTH mounts
/-- Mount points reported while handling one entry, its subtree included. -/
def Entry.emitted (B_CD B_FILE_NAME_LENGTH : Nat) (mounts : List Volume) :
    Entry → List CString
  | .directory (some _) (some e_name) sub =>
    if e_name ≠ "floppy".toList then sub.emitted B_CD B_FILE_NAME_LENGTH mounts else []
  | .directory _ _ _ => []
  | .file path e_name dev =>
    (Entry.callbackArg B_CD B_FILE_NAME_LENGTH mounts (.file path e_name dev)).toList
end

/-! ## Positions in the device tree

A node is addressed by the list of its indices: `[i]` is entry `i` of the scan
root, `i :: p` is position `p` inside the directory that is entry `i`. -/

/-- Entry number `i` of an entry list. -/
def Entries.nth : Entries → Nat → Option Entry
  | .nil, _ => none
  | .cons entry _, 0 => some entry
  | .cons _ rest, i + 1 => rest.nth i

/-- The entry list without its entry number `i`. -/
def Entries.eraseNth : Entries → Nat → Entries
  | .nil, _ => .nil
  | .cons _ rest, 0 => rest
  | .cons entry rest, i + 1 => .cons entry (rest.eraseNth i)

/-- The entry list with `f` applied to its entry number `i`. -/
def Entries.modifyNth (f : Entry → Entry) : Entries → Nat → Entries
  | .nil, _ => .nil
  | .cons entry rest, 0 => .cons (f entry) rest
  | .cons entry rest, i + 1 => .cons entry (rest.modifyNth f i)

/-- Entry number `i` of a directory. -/
def Dir.nth : Dir → Nat → Option Entry
  | .bad, _ => none
  | .ok entries, i => entries.nth i

/-- The directory below an entry (none below a non-directory). -/
def Entry.sub : Entry → Dir
  | .directory _ _ sub => sub
  | .file _ _ _ => .bad

/-- The entry with `f` applied to the directory below it. -/
def Entry.mapSub (f : Dir → Dir) : Entry → Entry
  | .directory path e_name sub => .directory path e_name (f sub)
  | .file path e_name dev => .file path e_name dev

/-- The node at a position of the tree. -/
def Dir.nodeAt : Dir → List Nat → Option Entry
  | _, [] => none
  | d, i :: p =>
    match d.nth i with
    | none => none
    | some entry =>
      match p with
      | [] => some entry
      | _ :: _ => entry.sub.nodeAt p

/-- The tree with `g` applied, in the directory that holds position `p`, at the
index of `p` in that directory. -/
def Dir.alterAt (g : Entries → Nat → Entries) : Dir → List Nat → Dir
  | d, [] => d
  | .bad, _ :: _ => .bad
  | .ok entries, i :: p =>
    match p with
    | [] => .ok (g entries i)
    | _ :: _ => .ok (entries.modifyNth (Entry.mapSub (fun d => Dir.alterAt g d p)) i)

/-- The tree with the node at position `p` removed (with all below it). -/
def Dir.removeAt (d : Dir) (p : List Nat) : Dir :=
  d.alterAt Entries.eraseNth p

/-- The tree with the contents of the directory at position `p` replaced by `sub`. -/
def Dir.setSubAt (d : Dir) (p : List Nat) (sub : Dir) : Dir :=
  d.alterAt (Entries.modifyNth (Entry.mapSub (fun _ => sub))) p


/-! ## The nodes of a tree -/

mutual
/-- Every node of the tree, in the order of a depth-first walk. -/
def Dir.allNodes : Dir → List Entry
  | .bad => []
  | .ok entries => entries.allNodes
/-- Every node of an entry list with the nodes below them. -/
def Entries.allNodes : Entries → List Entry
  | .nil => []
  | .cons entry rest => entry :: (entry.nodesBelow ++ rest.allNodes)
/-- Every node below an entry. -/
def Entry.nodesBelow : Entry → List Entry
  | .directory _ _ sub => sub.allNodes
  | .file _ _ _ => []
end

mutual
/-- The nodes the walk reaches, in walk order: the entries of the scan root and,
below each directory entry whose path and name are read and whose name is not
`floppy`, the nodes reached in it. -/
def Dir.reached : Dir → List Entry
  | .bad => []
  | .ok entries => entries.reached
/-- The nodes reached from an entry list. -/
def Entries.reached : Entries → List Entry
  | .nil => []
  | .cons entry rest => entry :: (entry.reachedBelow ++ rest.reached)
/-- The nodes reached below an entry. -/
def Entry.reachedBelow : Entry → List Entry
  | .directory (some _) (some e_name) sub =>
    if e_name ≠ "floppy".toList then sub.reached else []
  | .directory _ _ _ => []
  | .file _ _ _ => []
end

/-! ## `__PHYSFS_platformCalcBaseDir` -/

/-- The fields of an `image_info` record the routine reads. -/
structure image_info where
  /-- Field `info.type`. -/
  type : Nat
  /-- Field `info.name`. -/
  name : CString
deriving DecidableEq

/-- The record `info` after the loop
`while (get_next_image_info(0, &cookie, &info) == B_OK) { if (info.type == B_APP_IMAGE) break; }`
where `images` are the records the successive calls write and `info` is the
record before the loop. -/
def scanImages (B_APP_IMAGE : Nat) (info : image_info) : List image_info → image_info
  | [] => info
  | next :: images =>
    if next.type = B_APP_IMAGE then next else scanImages B_APP_IMAGE next images

/-- Modelled from the spec: `BPath::GetParent` belongs to the storage kit of the
OS and is not in the repository.  It "strips the final path component to yield
the containing directory": on a normalised absolute path it drops the last
component with the slash before it, the parent of a top-level name being `/`,
and fails on `/` itself, which has no parent. -/
def BPath.GetParent (path : CString) : Option CString :=
  if path.length ≤ 1 then none
  else
    let parent := ((path.reverse.dropWhile (fun c => c != '/')).drop 1).reverse
    some (if parent = [] then ['/'] else parent)

/-- The error `BAIL_IF_MACRO` records before returning. -/
inductive PhysfsError where
  | ERR_OUT_OF_MEMORY
deriving DecidableEq

/-- How a call of `__PHYSFS_platformCalcBaseDir` ends. -/
inductive BaseDirResult where
  /-- One of the three `assert`s fails. -/
  | assertFails
  /-- The routine returns `NULL`, having recorded the error. -/
  | null (err : PhysfsError)
  /-- The routine returns the allocated string `retval`. -/
  | retval (str : CString)
deriving DecidableEq

/-- Model of `__PHYSFS_platformCalcBaseDir(argv0)`.  From the OS: `images` and
`uninit` as in `scanImages`; `resolve name` is the path `BEntry entry(name, true)`
followed by `entry.GetPath(&path)` gives (`none` when `rc != B_OK`);
`Malloc size` tells whether `allocator.Malloc(size)` returns a block. -/
def __PHYSFS_platformCalcBaseDir (B_APP_IMAGE : Nat) (images : List image_info)
    (uninit : image_info) (resolve : CString → Option CString) (Malloc : Nat → Bool)
    (_argv0 : CString) : BaseDirResult :=
  let info := scanImages B_APP_IMAGE uninit images
  match resolve info.name with
  | none => .assertFails
  | some path =>
    match BPath.GetParent path with
    | none => .assertFails
    | some str =>
      if Malloc (str.length + 1) = false then .null .ERR_OUT_OF_MEMORY
      else .retval str

/-! ## The mutex routines -/

/-- Modelled from the spec: `BLocker` is the recursive lock of the OS support kit
and is not in the repository.  The spec (4.2) gives it an owner and a hold
count: acquiring "blocks the calling thread until the lock is obtained"; "if
the calling thread already holds the lock, acquisition succeeds immediately and
increments an internal hold count"; releasing "decrements the hold count; the
lock becomes available to other threads only when the count reaches zero". -/
structure BLocker where
  /-- The thread that holds the lock, if any. -/
  owner : Option Nat
  /-- The hold count. -/
  count : Nat
deriving DecidableEq

/-- A call that may block: it returns a value, or the calling thread waits. -/
inductive Blocking (α : Type) where
  | returns (value : α)
  | blocks
deriving DecidableEq

/-- Modelled from the spec: `BLocker::Lock()` called by thread `self`. -/
def BLocker.Lock (l : BLocker) (self : Nat) : Blocking (Bool × BLocker) :=
  match l.owner with
  | none => .returns (true, ⟨some self, 1⟩)
  | some holder =>
    if holder = self then .returns (true, ⟨some self, l.count + 1⟩) else .blocks

/-- Modelled from the spec: `BLocker::Unlock()` called by thread `self`.  A
release by a thread that does not hold the lock is undefined in the spec; here
it changes nothing. -/
def BLocker.Unlock (l : BLocker) (self : Nat) : BLocker :=
  match l.owner with
  | none => l
  | some holder =>
    if holder = self then
      if l.count ≤ 1 then ⟨none, 0⟩ else ⟨some holder, l.count - 1⟩
    else l

/-- Model of `__PHYSFS_platformCreateMutex()`: `new BLocker("PhysicsFS lock", true)`,
a lock nobody holds. -/
def __PHYSFS_platformCreateMutex : BLocker :=
  ⟨none, 0⟩

/-- Model of `__PHYSFS_platformGrabMutex(mutex)` called by thread `self`:
`((BLocker *) mutex)->Lock() ? 1 : 0`, with the lock as it is afterwards. -/
def __PHYSFS_platformGrabMutex (self : Nat) (mutex : BLocker) : Blocking (Int × BLocker) :=
  match mutex.Lock self with
  | .returns (ok, locker) => .returns (if ok then 1 else 0, locker)
  | .blocks => .blocks

/-- Model of `__PHYSFS_platformReleaseMutex(mutex)` called by thread `self`. -/
def __PHYSFS_platformReleaseMutex (self : Nat) (mutex : BLocker) : BLocker :=
  mutex.Unlock self

/-- The lock after `k` successive grabs by thread `self`, with the values they
return; `blocks` when one of them blocks. -/
def grabTimes (self : Nat) : Nat → BLocker → Blocking (List Int × BLocker)
  | 0, mutex => .returns ([], mutex)
  | k + 1, mutex =>
    match __PHYSFS_platformGrabMutex self mutex with
    | .blocks => .blocks
    | .returns (r, locker) =>
      match grabTimes self k locker with
      | .blocks => .blocks
      | .returns (rs, final) => .returns (r :: rs, final)

/-- The lock after `k` successive releases by thread `self`. -/
def releaseTimes (self : Nat) : Nat → BLocker → BLocker
  | 0, mutex => mutex
  | k + 1, mutex => releaseTimes self k (__PHYSFS_platformReleaseMutex self mutex)

/-! ## `__PHYSFS_platformSetDefaultAllocator` -/

/-- Modelled from the spec: `PHYSFS_Allocator` is declared in the public header,
which is not in the repository: "a set of function pointers for
allocate/reallocate/free".  `Fn` is the type of such a pointer. -/
structure PHYSFS_Allocator (Fn : Type) where
  Malloc : Fn
  Realloc : Fn
  Free : Fn
deriving DecidableEq

/-- Model of `__PHYSFS_platformSetDefaultAllocator(a)`: the value returned, and
the table `a` points to as it is after the call. -/
def __PHYSFS_platformSetDefaultAllocator {Fn : Type} (a : PHYSFS_Allocator Fn) :
    Int × PHYSFS_Allocator Fn :=
  (0, a)

/-! ## Fixtures -/

/-- An entry list from a list of entries. -/
def Entries.ofList : List Entry → Entries
  | [] => .nil
  | entry :: rest => .cons entry (Entries.ofList rest)

/-- A directory entry of the fixture. -/
def fxDir (path e_name : String) (entries : List Entry) : Entry :=
  .directory (some path.toList) (some e_name.toList) (.ok (Entries.ofList entries))

/-- A device node of the fixture. -/
def fxFile (path e_name : String) (dev : Device) : Entry :=
  .file (some path.toList) (some e_name.toList) dev

/-- A mounted volume of the fixture whose root resolves. -/
def fxVolume (device_name root : String) : Volume :=
  ⟨device_name.toList, true, true, true, some root.toList⟩

/-- Mounted volumes of the fixture: a hard disk partition, a CD, a volume on the
node below `floppy`, and a volume on the whole hard disk node. -/
def fxMounts : List Volume :=
  [fxVolume "/dev/disk/hd/0_0" "/boot",
   fxVolume "/dev/disk/cd/raw" "/CDROM",
   fxVolume "/dev/disk/floppy/raw" "/fake",
   fxVolume "/dev/disk/hd/raw" "/whole"]

/-- A device tree fixture (what is at `/dev/disk`), with `B_CD = 5`:
`floppy/raw` (a CD-class node below the excluded directory), `cd/0_0` and
`cd/raw` (CD-class), `hd/0_0` (CD-class geometry, partition name), `hd/raw`
(disk class, mounted), `usb/raw` (open fails), `zip/raw` (CD-class, no volume
mounted). -/
def fxTree : Dir :=
  .ok (Entries.ofList
    [fxDir "/dev/disk/floppy" "floppy" [fxFile "/dev/disk/floppy/raw" "raw" (.geometry 5)],
     fxDir "/dev/disk/cd" "cd"
       [fxFile "/dev/disk/cd/0_0" "0_0" (.geometry 5),
        fxFile "/dev/disk/cd/raw" "raw" (.geometry 5)],
     fxDir "/dev/disk/hd" "hd"
       [fxFile "/dev/disk/hd/0_0" "0_0" (.geometry 5),
        fxFile "/dev/disk/hd/raw" "raw" (.geometry 0)],
     fxDir "/dev/disk/usb" "usb" [fxFile "/dev/disk/usb/raw" "raw" .openFails],
     fxDir "/dev/disk/zip" "zip" [fxFile "/dev/disk/zip/raw" "raw" (.geometry 5)]])

/-- Mounted volumes where two volumes carry the device name `/dev/disk/cd/raw`:
the root directory of the first one does not resolve, that of the second does. -/
def fxTwice : List Volume :=
  [fxVolume "/dev/disk/hd/0_0" "/boot",
   ⟨"/dev/disk/cd/raw".toList, false, true, true, some "/first".toList⟩,
   fxVolume "/dev/disk/cd/raw" "/second"]

/-- The contents of the fixture directory `cd`: the CD-class node `cd/raw`, on
which a volume is mounted. -/
def fxCdContents : Dir :=
  .ok (.cons (fxFile "/dev/disk/cd/raw" "raw" (.geometry 5)) .nil)

/-- A directory entry named `cd` for which `entry.GetPath` fails, holding
`fxCdContents`. -/
def fxUnreadableCd : Entry :=
  .directory none (some "cd".toList) fxCdContents

/-- Image records of the fixture process, with `B_APP_IMAGE = 1`: a library
loaded first, the application, an add-on. -/
def fxImages : List image_info :=
  [⟨2, "/system/lib/libroot.so".toList⟩, ⟨1, "/apps/demo/bin/demo".toList⟩,
   ⟨3, "/apps/demo/add-ons/plugin".toList⟩]

/-! ## `tryDir` against the per-entry view -/

theorem callbackArg_file_eq (B_CD n : Nat) (mounts : List Volume) (path e_name) (dev : Device) :
    Entry.callbackArg B_CD n mounts (.file path e_name dev) =
      match path, e_name, dev with
      | some name, some e_name, .geometry t =>
        if e_name = "raw".toList ∧ t = B_CD then mountPointFor n mounts name else none
      | _, _, _ => none := by
  cases path <;> cases e_name <;> cases dev <;> rfl

mutual
theorem tryDir_eq_foldl {σ : Type} (B_CD n : Nat) (mounts : List Volume)
    (cb : σ → CString → σ) : ∀ (d : Dir) (data : σ),
    tryDir B_CD n mounts cb data d = (d.emitted B_CD n mounts).foldl cb data
  | .bad, data => by simp [tryDir, Dir.emitted]
  | .ok es, data => by
    simp only [tryDir, Dir.emitted]
    exact tryDirLoop_eq_foldl B_CD n mounts cb es data
theorem tryDirLoop_eq_foldl {σ : Type} (B_CD n : Nat) (mounts : List Volume)
    (cb : σ → CString → σ) : ∀ (es : Entries) (data : σ),
    tryDirLoop B_CD n mounts cb data es = (es.emitted B_CD n mounts).foldl cb data
  | .nil, data => by simp [tryDirLoop, Entries.emitted]
  | .cons (.directory path e_name sub) rest, data => by
    cases path with
    | none => simp [tryDirLoop, Entries.emitted, Entry.emitted,
        tryDirLoop_eq_foldl B_CD n mounts cb rest]
    | some nm =>
      cases e_name with
      | none => simp [tryDirLoop, Entries.emitted, Entry.emitted,
          tryDirLoop_eq_foldl B_CD n mounts cb rest]
      | some en =>
        by_cases h : en = "floppy".toList <;> simp at h
        · simp [tryDirLoop, Entries.emitted, Entry.emitted, h,
            tryDirLoop_eq_foldl B_CD n mounts cb rest]
        · simp [tryDirLoop, Entries.emitted, Entry.emitted, h,
            tryDirLoop_eq_foldl B_CD n mounts cb rest,
            tryDir_eq_foldl B_CD n mounts cb sub]
  | .cons (.file path e_name dev) rest, data => by
    have ih := tryDirLoop_eq_foldl B_CD n mounts cb rest
    cases path with
    | none => simp [tryDirLoop, Entries.emitted, Entry.emitted, Entry.callbackArg, ih]
    | some nm =>
      cases e_name with
      | none => simp [tryDirLoop, Entries.emitted, Entry.emitted, Entry.callbackArg, ih]
      | some en =>
        by_cases h : en = "raw".toList <;> simp at h
        · cases dev with
          | openFails => simp [tryDirLoop, Entries.emitted, Entry.emitted, Entry.callbackArg, ih]
          | ioctlFails => simp [tryDirLoop, Entries.emitted, Entry.emitted, Entry.callbackArg, ih]
          | geometry t =>
            by_cases ht : t = B_CD
            · cases hm : getMountPoint mounts nm (List.replicate n NUL) n <;>
                simp [tryDirLoop, Entries.emitted, Entry.emitted, Entry.callbackArg, ih, h, ht,
                  hm, mountPointFor]
            · simp [tryDirLoop, Entries.emitted, Entry.emitted, Entry.callbackArg, ih, h, ht]
        · cases dev <;>
            simp [tryDirLoop, Entries.emitted, Entry.emitted, Entry.callbackArg, ih, h]
end

theorem foldl_logCallback (l acc : List CString) : l.foldl logCallback acc = acc ++ l := by
  induction l generalizing acc with
  | nil => simp
  | cons x xs ih => simp [List.foldl, logCallback, ih]

theorem callbacks_eq_emitted (B_CD n : Nat) (mounts : List Volume) (d : Dir) :
    callbacks B_CD n mounts d = d.emitted B_CD n mounts := by
  simp [callbacks, __PHYSFS_platformDetectAvailableCDs, tryDir_eq_foldl, foldl_logCallback]

/-! ## Changing the tree at a position -/

theorem emitted_cons (B_CD n : Nat) (mounts : List Volume) (e : Entry) (rest : Entries) :
    (Entries.cons e rest).emitted B_CD n mounts =
      e.emitted B_CD n mounts ++ rest.emitted B_CD n mounts := by
  simp [Entries.emitted]

theorem emitted_eraseNth (B_CD n : Nat) (mounts : List Volume) :
    ∀ (es : Entries) (i : Nat) (e : Entry), es.nth i = some e →
      e.emitted B_CD n mounts = [] →
      (es.eraseNth i).emitted B_CD n mounts = es.emitted B_CD n mounts
  | .nil, _, _, h, _ => by simp [Entries.nth] at h
  | .cons x rest, 0, e, h, he => by
    simp only [Entries.nth, Option.some.injEq] at h
    subst h
    simp [Entries.eraseNth, emitted_cons, he]
  | .cons x rest, i + 1, e, h, he => by
    simp only [Entries.nth] at h
    simp [Entries.eraseNth, emitted_cons, emitted_eraseNth B_CD n mounts rest i e h he]

theorem emitted_modifyNth (B_CD n : Nat) (mounts : List Volume) (f : Entry → Entry) :
    ∀ (es : Entries) (i : Nat),
      (∀ e, es.nth i = some e → (f e).emitted B_CD n mounts = e.emitted B_CD n mounts) →
      (es.modifyNth f i).emitted B_CD n mounts = es.emitted B_CD n mounts
  | .nil, _, _ => by simp [Entries.modifyNth]
  | .cons x rest, 0, h => by
    simp [Entries.modifyNth, emitted_cons, h x (by simp [Entries.nth])]
  | .cons x rest, i + 1, h => by
    have h2 : ∀ e, rest.nth i = some e →
        (f e).emitted B_CD n mounts = e.emitted B_CD n mounts := by
      intro e he
      exact h e (by simpa [Entries.nth] using he)
    simp [Entries.modifyNth, emitted_cons, emitted_modifyNth B_CD n mounts f rest i h2]

theorem emitted_mapSub (B_CD n : Nat) (mounts : List Volume) (f : Dir → Dir) (e : Entry)
    (h : (f e.sub).emitted B_CD n mounts = e.sub.emitted B_CD n mounts) :
    (e.mapSub f).emitted B_CD n mounts = e.emitted B_CD n mounts := by
  cases e with
  | file path e_name dev => simp [Entry.mapSub]
  | directory path e_name sub =>
    simp only [Entry.sub] at h
    cases path <;> cases e_name <;> simp [Entry.mapSub, Entry.emitted, h]

/-- A change `g` of an entry list that does not change what the list emits,
whenever the entry at the index satisfies `P`, does not change what the whole
scan emits when made at the position of a node satisfying `P`. -/
theorem emitted_alterAt (B_CD n : Nat) (mounts : List Volume)
    (g : Entries → Nat → Entries) (P : Entry → Prop)
    (hg : ∀ es i e, es.nth i = some e → P e →
      (g es i).emitted B_CD n mounts = es.emitted B_CD n mounts) :
    ∀ (p : List Nat) (d : Dir) (e : Entry), d.nodeAt p = some e → P e →
      (d.alterAt g p).emitted B_CD n mounts = d.emitted B_CD n mounts
  | [], d, _, _, _ => by simp [Dir.alterAt]
  | i :: p, .bad, e, h, _ => by simp [Dir.alterAt]
  | [i], .ok es, e, h, hP => by
    simp only [Dir.nodeAt, Dir.nth] at h
    cases hn : es.nth i with
    | none => simp [hn] at h
    | some x =>
      simp only [hn, Option.some.injEq] at h
      subst h
      simp only [Dir.alterAt, Dir.emitted]
      exact hg es i x hn hP
  | i :: j :: p, .ok es, e, h, hP => by
    simp only [Dir.nodeAt, Dir.nth] at h
    simp only [Dir.alterAt, Dir.emitted]
    apply emitted_modifyNth
    intro x hx
    simp only [hx] at h
    exact emitted_mapSub B_CD n mounts _ x
      (emitted_alterAt B_CD n mounts g P hg (j :: p) x.sub e h hP)

/-! ## The scan and the nodes it reaches -/

mutual
theorem emitted_dir_eq_filterMap (B_CD n : Nat) (mounts : List Volume) : ∀ d : Dir,
    d.emitted B_CD n mounts = d.reached.filterMap (Entry.callbackArg B_CD n mounts)
  | .bad => by simp [Dir.emitted, Dir.reached]
  | .ok es => by
    simp only [Dir.emitted, Dir.reached]
    exact emitted_entries_eq_filterMap B_CD n mounts es
theorem emitted_entries_eq_filterMap (B_CD n : Nat) (mounts : List Volume) : ∀ es : Entries,
    es.emitted B_CD n mounts = es.reached.filterMap (Entry.callbackArg B_CD n mounts)
  | .nil => by simp [Entries.emitted, Entries.reached]
  | .cons e rest => by
    rw [emitted_cons, Entries.reached, emitted_entry_eq_filterMap B_CD n mounts e,
      emitted_entries_eq_filterMap B_CD n mounts rest]
    cases h : Entry.callbackArg B_CD n mounts e <;>
      simp [List.filterMap_cons, List.filterMap_append, h]
theorem emitted_entry_eq_filterMap (B_CD n : Nat) (mounts : List Volume) : ∀ e : Entry,
    e.emitted B_CD n mounts =
      (Entry.callbackArg B_CD n mounts e).toList ++
        e.reachedBelow.filterMap (Entry.callbackArg B_CD n mounts)
  | .file path e_name dev => by simp [Entry.emitted, Entry.reachedBelow]
  | .directory none _ sub => by
    simp [Entry.emitted, Entry.reachedBelow, Entry.callbackArg]
  | .directory (some _) none sub => by
    simp [Entry.emitted, Entry.reachedBelow, Entry.callbackArg]
  | .directory (some _) (some en) sub => by
    by_cases h : en = "floppy".toList <;> simp at h
    · simp [Entry.emitted, Entry.reachedBelow, Entry.callbackArg, h]
    · simp [Entry.emitted, Entry.reachedBelow, Entry.callbackArg, h,
        emitted_dir_eq_filterMap B_CD n mounts sub]
end

theorem callbackArg_isSome_iff (B_CD n : Nat) (mounts : List Volume) (e : Entry) :
    (Entry.callbackArg B_CD n mounts e).isSome = true ↔
      ∃ name, e = .file (some name) (some "raw".toList) (.geometry B_CD) ∧
        (getMountPoint mounts name (List.replicate n NUL) n).isSome = true := by
  constructor
  · intro h
    cases e with
    | directory path e_name sub => simp [Entry.callbackArg] at h
    | file path e_name dev =>
      rw [callbackArg_file_eq] at h
      cases path with
      | none => simp at h
      | some name =>
        cases e_name with
        | none => simp at h
        | some en =>
          cases dev with
          | openFails => simp at h
          | ioctlFails => simp at h
          | geometry t =>
            by_cases hc : en = "raw".toList ∧ t = B_CD
            · obtain ⟨h1, h2⟩ := hc
              subst h1 h2
              refine ⟨name, rfl, ?_⟩
              simpa [mountPointFor] using h
            · simp only [String.toList] at hc
              simp [hc] at h
  · rintro ⟨name, rfl, h⟩
    simpa [Entry.callbackArg, mountPointFor] using h

theorem emitted_file_of_silent (B_CD n : Nat) (mounts : List Volume) (path e_name dev)
    (h : Entry.callbackArg B_CD n mounts (.file path e_name dev) = none) :
    (Entry.file path e_name dev).emitted B_CD n mounts = [] := by
  simp [Entry.emitted, h]

theorem scan_removeAt_of_silent {σ : Type} (B_CD n : Nat) (mounts : List Volume) (devDisk : Dir)
    (p : List Nat) (e : Entry) (h : devDisk.nodeAt p = some e)
    (he : e.emitted B_CD n mounts = []) (cb : σ → CString → σ) (data : σ) :
    __PHYSFS_platformDetectAvailableCDs B_CD n mounts (devDisk.removeAt p) cb data =
      __PHYSFS_platformDetectAvailableCDs B_CD n mounts devDisk cb data := by
  simp only [__PHYSFS_platformDetectAvailableCDs, tryDir_eq_foldl, Dir.removeAt]
  rw [emitted_alterAt B_CD n mounts Entries.eraseNth (fun e => e.emitted B_CD n mounts = [])
    (fun es i e h1 h2 => emitted_eraseNth B_CD n mounts es i e h1 h2) p devDisk e h he]

/-! ## Claims on the scan -/

/-- C1 (amended): for every device tree, volume list, callback and start state,
the scan invokes the callback exactly once, in walk order, for each node the
walk reaches that is a non-directory named `raw`, opens, reports geometry of
class `B_CD` and resolves to a mount point, and for no other node. -/
theorem C1_scan_reports_each_reached_cd_node :
    ∀ (B_CD n : Nat) (mounts : List Volume) (devDisk : Dir),
      (∀ (σ : Type) (cb : σ → CString → σ) (data : σ),
        __PHYSFS_platformDetectAvailableCDs B_CD n mounts devDisk cb data =
          (devDisk.reached.filterMap (Entry.callbackArg B_CD n mounts)).foldl cb data) ∧
      callbacks B_CD n mounts devDisk =
        devDisk.reached.filterMap (Entry.callbackArg B_CD n mounts) ∧
      (callbacks B_CD n mounts devDisk).length =
        devDisk.reached.countP (fun e => (Entry.callbackArg B_CD n mounts e).isSome) ∧
      (∀ e : Entry, (Entry.callbackArg B_CD n mounts e).isSome = true ↔
        ∃ name, e = .file (some name) (some "raw".toList) (.geometry B_CD) ∧
          (getMountPoint mounts name (List.replicate n NUL) n).isSome = true) := by
  intro B_CD n mounts devDisk
  refine ⟨?_, ?_, ?_, callbackArg_isSome_iff B_CD n mounts⟩
  · intro σ cb data
    simp only [__PHYSFS_platformDetectAvailableCDs, tryDir_eq_foldl,
      emitted_dir_eq_filterMap]
  · rw [callbacks_eq_emitted, emitted_dir_eq_filterMap]
  · rw [callbacks_eq_emitted, emitted_dir_eq_filterMap, List.length_filterMap_eq_countP]

/-- C1 as stated fails: in the fixture the node `floppy/raw` is named `raw`,
reports geometry of class `B_CD` and resolves to the mount point `/fake`, and
the scan never invokes the callback for it: the callback is invoked once, for
`cd/raw`, where one invocation per such node of the tree would be two. -/
theorem C1_counterexample_node_below_floppy :
    fxTree.nodeAt [0, 0] = some (fxFile "/dev/disk/floppy/raw" "raw" (.geometry 5)) ∧
    Entry.callbackArg 5 256 fxMounts (fxFile "/dev/disk/floppy/raw" "raw" (.geometry 5)) =
      some "/fake".toList ∧
    fxTree.allNodes.filterMap (Entry.callbackArg 5 256 fxMounts) =
      ["/fake".toList, "/CDROM".toList] ∧
    callbacks 5 256 fxMounts fxTree = ["/CDROM".toList] ∧
    callbacks 5 256 fxMounts fxTree ≠
      fxTree.allNodes.filterMap (Entry.callbackArg 5 256 fxMounts) := by
  refine ⟨rfl, by decide, by decide, by decide, by decide⟩

theorem emitted_floppy (B_CD n : Nat) (mounts : List Volume) (path : Option CString)
    (sub : Dir) :
    (Entry.directory path (some "floppy".toList) sub).emitted B_CD n mounts = [] := by
  cases path <;> simp [Entry.emitted]

theorem tryDirLoop_cons {σ : Type} (B_CD n : Nat) (mounts : List Volume)
    (cb : σ → CString → σ) (data : σ) (e : Entry) (rest : Entries) :
    tryDirLoop B_CD n mounts cb data (.cons e rest) =
      tryDirLoop B_CD n mounts cb ((e.emitted B_CD n mounts).foldl cb data) rest := by
  simp [tryDirLoop_eq_foldl, emitted_cons]

/-- C2 (amended): a directory entry named `floppy` is skipped by the loop
whatever lies below it, so that replacing the contents of such a directory,
anywhere in the tree, by any other contents leaves every scan unchanged (no
node below it produces a callback); a directory entry with any other name is
recursed into, before the loop goes on, when `entry.GetPath` and `entry.GetRef`
succeeded for it; a directory entry for which one of them fails is skipped,
whatever its name and contents. -/
theorem C2_floppy_directory_not_descended (B_CD n : Nat) (mounts : List Volume) :
    (∀ (σ : Type) (cb : σ → CString → σ) (data : σ) (path : Option CString) (sub : Dir)
        (rest : Entries),
      tryDirLoop B_CD n mounts cb data (.cons (.directory path (some "floppy".toList) sub) rest) =
        tryDirLoop B_CD n mounts cb data rest) ∧
    (∀ (devDisk : Dir) (p : List Nat) (path : Option CString) (sub other : Dir),
      devDisk.nodeAt p = some (.directory path (some "floppy".toList) sub) →
      ∀ (σ : Type) (cb : σ → CString → σ) (data : σ),
        __PHYSFS_platformDetectAvailableCDs B_CD n mounts (devDisk.setSubAt p other) cb data =
          __PHYSFS_platformDetectAvailableCDs B_CD n mounts devDisk cb data) ∧
    (∀ (σ : Type) (cb : σ → CString → σ) (data : σ) (name e_name : CString) (sub : Dir)
        (rest : Entries), e_name ≠ "floppy".toList →
      tryDirLoop B_CD n mounts cb data (.cons (.directory (some name) (some e_name) sub) rest) =
        tryDirLoop B_CD n mounts cb (tryDir B_CD n mounts cb data sub) rest) ∧
    (∀ (σ : Type) (cb : σ → CString → σ) (data : σ) (path e_name : Option CString) (sub : Dir)
        (rest : Entries), path = none ∨ e_name = none →
      tryDirLoop B_CD n mounts cb data (.cons (.directory path e_name sub) rest) =
        tryDirLoop B_CD n mounts cb data rest) := by
  refine ⟨?_, ?_, ?_, ?_⟩
  · intro σ cb data path sub rest
    rw [tryDirLoop_cons, emitted_floppy]
    rfl
  · intro devDisk p path sub other h σ cb data
    simp only [__PHYSFS_platformDetectAvailableCDs, tryDir_eq_foldl, Dir.setSubAt]
    rw [emitted_alterAt B_CD n mounts (Entries.modifyNth (Entry.mapSub (fun _ => other)))
      (fun e => ∃ path sub, e = Entry.directory path (some "floppy".toList) sub) ?_ p devDisk _ h
      ⟨path, sub, rfl⟩]
    intro es i e hnth hP
    apply emitted_modifyNth
    intro x hx
    rw [hnth] at hx
    obtain ⟨q, s2, rfl⟩ := hP
    simp only [Option.some.injEq] at hx
    subst hx
    simp only [Entry.mapSub]
    rw [emitted_floppy, emitted_floppy]
  · intro σ cb data name e_name sub rest hne
    simp only [tryDirLoop]
    rw [if_pos hne]
  · intro σ cb data path e_name sub rest h
    rcases h with h | h
    · subst h
      simp only [tryDirLoop]
    · subst h
      cases path <;> simp only [tryDirLoop]

/-- C2 at the fixture: the directory at position `[0]` is named `floppy`;
emptying it leaves the scan as it is; the directory `cd`, its path being read,
is recursed into; the same directory with an unreadable path is skipped. -/
theorem C2_floppy_directory_not_descended_witness :
    callbacks 5 256 fxMounts (fxTree.setSubAt [0] (.ok .nil)) = callbacks 5 256 fxMounts fxTree ∧
    tryDirLoop 5 256 fxMounts logCallback []
        (.cons (.directory (some "/dev/disk/cd".toList) (some "cd".toList) fxCdContents) .nil) =
      tryDirLoop 5 256 fxMounts logCallback
        (tryDir 5 256 fxMounts logCallback [] fxCdContents) .nil ∧
    tryDirLoop 5 256 fxMounts logCallback [] (.cons fxUnreadableCd .nil) =
      tryDirLoop 5 256 fxMounts logCallback [] .nil :=
  ⟨(C2_floppy_directory_not_descended 5 256 fxMounts).2.1 fxTree [0]
      (some "/dev/disk/floppy".toList)
      (.ok (Entries.ofList [fxFile "/dev/disk/floppy/raw" "raw" (.geometry 5)])) (.ok .nil) rfl
      (List CString) logCallback [],
   (C2_floppy_directory_not_descended 5 256 fxMounts).2.2.1 (List CString) logCallback []
      "/dev/disk/cd".toList "cd".toList fxCdContents .nil (by decide),
   (C2_floppy_directory_not_descended 5 256 fxMounts).2.2.2 (List CString) logCallback []
      none (some "cd".toList) fxCdContents .nil (Or.inl rfl)⟩

/-- C2 as stated fails in its last clause: the directory entry `fxUnreadableCd`
is named `cd`, not `floppy`, and holds the mounted CD-class node `cd/raw`, but
`entry.GetPath` fails for it; the loop skips it and the callback is never
invoked, where recursing into it would invoke the callback with `/CDROM`. -/
theorem C2_counterexample_unreadable_directory_skipped :
    "cd".toList ≠ "floppy".toList ∧
    tryDirLoop 5 256 fxMounts logCallback [] (.cons fxUnreadableCd .nil) = [] ∧
    tryDirLoop 5 256 fxMounts logCallback
      (tryDir 5 256 fxMounts logCallback [] fxCdContents) .nil = ["/CDROM".toList] ∧
    tryDirLoop 5 256 fxMounts logCallback [] (.cons fxUnreadableCd .nil) ≠
      tryDirLoop 5 256 fxMounts logCallback
        (tryDir 5 256 fxMounts logCallback [] fxCdContents) .nil ∧
    callbacks 5 256 fxMounts (.ok (.cons fxUnreadableCd .nil)) = [] := by
  refine ⟨by decide, by decide, by decide, by decide, by decide⟩

/-- C3: a non-directory entry whose name is not `raw` (or cannot be read)
produces no callback, whatever probing it would give and whatever is mounted:
the loop passes over it without invoking the callback, and the scan of any tree
holding such a node at some position equals the scan of the tree without it. -/
theorem C3_partition_node_no_callback (B_CD n : Nat) (mounts : List Volume)
    (path e_name : Option CString) (dev : Device) (hname : e_name ≠ some "raw".toList) :
    (∀ (σ : Type) (cb : σ → CString → σ) (data : σ) (rest : Entries),
      tryDirLoop B_CD n mounts cb data (.cons (.file path e_name dev) rest) =
        tryDirLoop B_CD n mounts cb data rest) ∧
    (∀ (devDisk : Dir) (p : List Nat), devDisk.nodeAt p = some (.file path e_name dev) →
      ∀ (σ : Type) (cb : σ → CString → σ) (data : σ),
        __PHYSFS_platformDetectAvailableCDs B_CD n mounts (devDisk.removeAt p) cb data =
          __PHYSFS_platformDetectAvailableCDs B_CD n mounts devDisk cb data) := by
  have hs : (Entry.file path e_name dev).emitted B_CD n mounts = [] := by
    apply emitted_file_of_silent
    rw [callbackArg_file_eq]
    cases path <;> cases e_name <;> cases dev <;> simp
    rename_i nm en t
    intro h1
    exact absurd (by simp [h1]) hname
  refine ⟨?_, ?_⟩
  · intro σ cb data rest
    rw [tryDirLoop_cons, hs]
    rfl
  · intro devDisk p h σ cb data
    exact scan_removeAt_of_silent B_CD n mounts devDisk p _ h hs cb data

/-- C3 at the fixture: `hd/0_0` reports geometry of class `B_CD` and a volume is
mounted on it, yet removing it does not change the scan. -/
theorem C3_partition_node_no_callback_witness :
    callbacks 5 256 fxMounts (fxTree.removeAt [2, 0]) = callbacks 5 256 fxMounts fxTree :=
  (C3_partition_node_no_callback 5 256 fxMounts (some "/dev/disk/hd/0_0".toList)
    (some "0_0".toList) (.geometry 5) (by decide)).2 fxTree [2, 0] rfl
    (List CString) logCallback []

/-- C4: an entry named `raw` whose geometry query succeeds with a device class
other than `B_CD` produces no callback, whatever is mounted: the loop passes
over it without invoking the callback, and the scan of any tree holding such a
node at some position equals the scan of the tree without it. -/
theorem C4_non_cd_geometry_no_callback (B_CD n : Nat) (mounts : List Volume)
    (path : Option CString) (device_type : Nat) (hclass : device_type ≠ B_CD) :
    (∀ (σ : Type) (cb : σ → CString → σ) (data : σ) (rest : Entries),
      tryDirLoop B_CD n mounts cb data
          (.cons (.file path (some "raw".toList) (.geometry device_type)) rest) =
        tryDirLoop B_CD n mounts cb data rest) ∧
    (∀ (devDisk : Dir) (p : List Nat),
      devDisk.nodeAt p = some (.file path (some "raw".toList) (.geometry device_type)) →
      ∀ (σ : Type) (cb : σ → CString → σ) (data : σ),
        __PHYSFS_platformDetectAvailableCDs B_CD n mounts (devDisk.removeAt p) cb data =
          __PHYSFS_platformDetectAvailableCDs B_CD n mounts devDisk cb data) := by
  have hs : (Entry.file path (some "raw".toList) (.geometry device_type)).emitted
      B_CD n mounts = [] := by
    apply emitted_file_of_silent
    rw [callbackArg_file_eq]
    cases path <;> simp [hclass]
  refine ⟨?_, ?_⟩
  · intro σ cb data rest
    rw [tryDirLoop_cons, hs]
    rfl
  · intro devDisk p h σ cb data
    exact scan_removeAt_of_silent B_CD n mounts devDisk p _ h hs cb data

/-- C4 at the fixture: `hd/raw` reports class 0, not `B_CD = 5`, and a volume
with its device name and a resolving root is mounted; removing the node does
not change the scan. -/
theorem C4_non_cd_geometry_no_callback_witness :
    getMountPoint fxMounts "/dev/disk/hd/raw".toList (List.replicate 256 NUL) 256 ≠ none ∧
    callbacks 5 256 fxMounts (fxTree.removeAt [2, 1]) = callbacks 5 256 fxMounts fxTree :=
  ⟨by decide,
   (C4_non_cd_geometry_no_callback 5 256 fxMounts (some "/dev/disk/hd/raw".toList) 0
    (by decide)).2 fxTree [2, 1] rfl (List CString) logCallback []⟩

/-- C5: a probe failure is absorbed at the node.  When opening a node fails, or
its geometry query fails, or no mount point resolves for its path, the loop
passes over the node without invoking the callback and goes on with the
remaining entries, and the scan of any tree holding the node at some position
equals the scan of the tree without it.  (The scan has no error result: it
returns the callback state only.) -/
theorem C5_probe_failure_absorbed (B_CD n : Nat) (mounts : List Volume)
    (path e_name : Option CString) (dev : Device)
    (hfail : dev = .openFails ∨ dev = .ioctlFails ∨
      ∃ name, path = some name ∧
        getMountPoint mounts name (List.replicate n NUL) n = none) :
    (∀ (σ : Type) (cb : σ → CString → σ) (data : σ) (rest : Entries),
      tryDirLoop B_CD n mounts cb data (.cons (.file path e_name dev) rest) =
        tryDirLoop B_CD n mounts cb data rest) ∧
    (∀ (devDisk : Dir) (p : List Nat), devDisk.nodeAt p = some (.file path e_name dev) →
      ∀ (σ : Type) (cb : σ → CString → σ) (data : σ),
        __PHYSFS_platformDetectAvailableCDs B_CD n mounts (devDisk.removeAt p) cb data =
          __PHYSFS_platformDetectAvailableCDs B_CD n mounts devDisk cb data) := by
  have hs : (Entry.file path e_name dev).emitted B_CD n mounts = [] := by
    apply emitted_file_of_silent
    rw [callbackArg_file_eq]
    rcases hfail with h | h | ⟨name, h1, h2⟩
    · subst h
      cases path <;> cases e_name <;> rfl
    · subst h
      cases path <;> cases e_name <;> rfl
    · subst h1
      cases e_name <;> cases dev <;> simp [mountPointFor, h2]
  refine ⟨?_, ?_⟩
  · intro σ cb data rest
    rw [tryDirLoop_cons, hs]
    rfl
  · intro devDisk p h σ cb data
    exact scan_removeAt_of_silent B_CD n mounts devDisk p _ h hs cb data

/-- C5 at the fixture: opening `usb/raw` fails, and no mount point resolves for
`zip/raw`; removing either node does not change the scan. -/
theorem C5_probe_failure_absorbed_witness :
    callbacks 5 256 fxMounts (fxTree.removeAt [3, 0]) = callbacks 5 256 fxMounts fxTree ∧
    callbacks 5 256 fxMounts (fxTree.removeAt [4, 0]) = callbacks 5 256 fxMounts fxTree :=
  ⟨(C5_probe_failure_absorbed 5 256 fxMounts (some "/dev/disk/usb/raw".toList)
      (some "raw".toList) .openFails (Or.inl rfl)).2 fxTree [3, 0] rfl
      (List CString) logCallback [],
   (C5_probe_failure_absorbed 5 256 fxMounts (some "/dev/disk/zip/raw".toList)
      (some "raw".toList) (.geometry 5)
      (Or.inr (Or.inr ⟨"/dev/disk/zip/raw".toList, rfl, by decide⟩))).2 fxTree [4, 0] rfl
      (List CString) logCallback []⟩

/-! ## `getMountPoint` -/

theorem NUL_bne_self : (NUL != NUL) = false := by simp

theorem cstr_append_NUL (l r : List Char) (h : ∀ c ∈ l, c ≠ NUL) :
    cstr (l ++ NUL :: r) = l := by
  induction l with
  | nil => simp [cstr, List.takeWhile]
  | cons c l ih =>
    have hc : c ≠ NUL := h c (by simp)
    have hl : ∀ x ∈ l, x ≠ NUL := fun x hx => h x (by simp [hx])
    have ih2 := ih hl
    simp only [cstr] at ih2 ⊢
    have hb : (c != NUL) = true := by simp [hc]
    simp [List.takeWhile, hb, ih2]

theorem cstr_append_NUL_any (l r : List Char) : cstr (l ++ NUL :: r) = cstr l := by
  induction l with
  | nil => simp [cstr, List.takeWhile]
  | cons c l ih =>
    simp only [cstr] at ih ⊢
    by_cases hc : c = NUL
    · simp [List.takeWhile, hc]
    · simp [List.takeWhile, hc, ih]

theorem cstr_initial_segment (l : List Char) : cstr l <+: l :=
  ⟨l.dropWhile (fun c => c != NUL), List.takeWhile_append_dropWhile _ l⟩

/-- The buffer after `strncpy(buf, str, bufsize-1); buf[bufsize-1] = 0`, for a
buffer of `bufsize >= 1` characters: nothing of its former contents is left. -/
theorem written_buffer (buf : List Char) (str : CString) (n : Nat) (hn : 1 ≤ n)
    (hbuf : buf.length = n) :
    (strncpy buf str (n - 1)).set (n - 1) NUL =
      str.take (n - 1) ++ List.replicate (n - 1 - str.length) NUL ++ [NUL] := by
  have hd : (buf.drop (n - 1)).length = 1 := by simp [hbuf]; omega
  obtain ⟨x, hx⟩ := List.length_eq_one.mp hd
  have hA : (str.take (n - 1) ++ List.replicate (n - 1 - str.length) NUL).length = n - 1 := by
    simp; omega
  unfold strncpy
  rw [hx]
  generalize str.take (n - 1) ++ List.replicate (n - 1 - str.length) NUL = A at hA
  rw [← hA]
  simp

theorem getMountPoint_buf_irrelevant (mounts : List Volume) (devname : CString)
    (buf other : List Char) (n : Nat) (hn : 1 ≤ n) (hbuf : buf.length = n)
    (hother : other.length = n) :
    getMountPoint mounts devname buf n = getMountPoint mounts devname other n := by
  induction mounts with
  | nil => rfl
  | cons vol rest ih =>
    simp only [getMountPoint, ih, written_buffer buf _ n hn hbuf,
      written_buffer other _ n hn hother]

theorem getMountPoint_skip (pre rest : List Volume) (devname : CString) (buf : List Char)
    (n : Nat) (hpre : ∀ v ∈ pre, v.device_name ≠ devname) :
    getMountPoint (pre ++ rest) devname buf n = getMountPoint rest devname buf n := by
  induction pre with
  | nil => rfl
  | cons v pre ih =>
    have hv : ¬ devname = v.device_name := fun h => hpre v (by simp) h.symm
    have ih2 := ih (fun w hw => hpre w (by simp [hw]))
    rw [List.cons_append]
    simp only [getMountPoint, hv, if_false]
    exact ih2

theorem getMountPoint_first (vol : Volume) (rest : List Volume) (devname : CString)
    (buf : List Char) (n : Nat) (hdev : vol.device_name = devname) :
    getMountPoint (vol :: rest) devname buf n =
      if vol.GetRootDirectory = true ∧ vol.GetEntry = true ∧ vol.GetPath = true then
        vol.Path.map (fun str => (strncpy buf str (n - 1)).set (n - 1) NUL)
      else none := by
  subst hdev
  cases vol with
  | mk dn r e p path =>
    cases r <;> cases e <;> cases p <;> cases path <;> simp [getMountPoint]

theorem getMountPoint_some_elim (mounts : List Volume) (devname : CString) (buf : List Char)
    (n : Nat) (out : List Char) (h : getMountPoint mounts devname buf n = some out) :
    ∃ vol ∈ mounts, ∃ s, vol.Path = some s ∧
      out = (strncpy buf s (n - 1)).set (n - 1) NUL := by
  induction mounts with
  | nil => simp [getMountPoint] at h
  | cons vol rest ih =>
    by_cases hd : devname = vol.device_name
    · rw [getMountPoint_first vol rest devname buf n hd.symm] at h
      split at h
      · cases hp : vol.Path with
        | none => simp [hp] at h
        | some s =>
          simp only [hp, Option.map_some', Option.some.injEq] at h
          exact ⟨vol, by simp, s, hp, h.symm⟩
      · simp at h
    · simp only [getMountPoint, hd, if_false] at h
      obtain ⟨v, hv, s, hs, ho⟩ := ih h
      exact ⟨v, by simp [hv], s, hs, ho⟩

theorem replicate_NUL_snoc (k : Nat) :
    List.replicate k NUL ++ [NUL] = NUL :: List.replicate k NUL := by
  rw [← List.replicate_succ', List.replicate_succ]

theorem take_min_length (s : List Char) (k : Nat) : s.take (min s.length k) = s.take k := by
  rcases Nat.le_total s.length k with h | h
  · rw [Nat.min_eq_left h, List.take_of_length_le h, List.take_of_length_le (Nat.le_refl _)]
  · rw [Nat.min_eq_right h]

theorem mountPointFor_some (n : Nat) (hn : 1 ≤ n) (mounts : List Volume) (name m : CString)
    (h : mountPointFor n mounts name = some m) :
    ∃ v ∈ mounts, ∃ p, v.Path = some p ∧ m = cstr (p.take (n - 1)) := by
  unfold mountPointFor at h
  cases hg : getMountPoint mounts name (List.replicate n NUL) n with
  | none => simp [hg] at h
  | some out =>
    simp only [hg, Option.map_some', Option.some.injEq] at h
    obtain ⟨v, hv, p, hp, ho⟩ := getMountPoint_some_elim mounts name _ n out hg
    refine ⟨v, hv, p, hp, ?_⟩
    rw [written_buffer _ p n hn (by simp), List.append_assoc, replicate_NUL_snoc] at ho
    rw [← h, ho, cstr_append_NUL_any]

theorem callbackArg_some (B_CD n : Nat) (mounts : List Volume) (e : Entry) (m : CString)
    (h : Entry.callbackArg B_CD n mounts e = some m) :
    ∃ name, mountPointFor n mounts name = some m := by
  cases e with
  | directory path e_name sub => simp [Entry.callbackArg] at h
  | file path e_name dev =>
    rw [callbackArg_file_eq] at h
    cases path with
    | none => simp at h
    | some name =>
      cases e_name with
      | none => simp at h
      | some en =>
        cases dev with
        | openFails => simp at h
        | ioctlFails => simp at h
        | geometry t =>
          simp only at h
          split at h
          · exact ⟨name, h⟩
          · simp at h

/-- C9: the mount point is length-limited, not rejected.  With a buffer of
`n >= 1` characters, when the first volume whose device name is `devname`
resolves to the root path `s`, `getMountPoint` returns the buffer (not `NULL`)
holding the first `min (len s) (n-1)` characters of `s`, then a NUL (and NULs up
to the end of the buffer); read as a C string it is that beginning of `s`, of
length at most `n-1`, and differs from `s` when `len s >= n`.  A scan hands the
callback that string for a matching node, and every string any scan hands to
the callback has length at most `n-1` and is the beginning of the root path of
a mounted volume. -/
theorem C9_mount_point_length_limited (n : Nat) (hn : 1 ≤ n) (devname : CString)
    (buf : List Char) (hbuf : buf.length = n) (pre : List Volume) (vol : Volume)
    (post : List Volume) (s : CString)
    (hpre : ∀ v ∈ pre, v.device_name ≠ devname) (hdev : vol.device_name = devname)
    (hroot : vol.GetRootDirectory = true) (hentry : vol.GetEntry = true)
    (hpath : vol.GetPath = true) (hs : vol.Path = some s) (hnul : ∀ c ∈ s, c ≠ NUL) :
    (∃ out, getMountPoint (pre ++ vol :: post) devname buf n = some out ∧
      out = s.take (min s.length (n - 1)) ++
        NUL :: List.replicate (n - 1 - min s.length (n - 1)) NUL ∧
      out.length = n ∧
      cstr out = s.take (min s.length (n - 1)) ∧
      (cstr out).length = min s.length (n - 1) ∧
      (cstr out).length ≤ n - 1 ∧
      cstr out <+: s ∧
      (n ≤ s.length → cstr out ≠ s)) ∧
    (∀ B_CD : Nat, callbacks B_CD n (pre ++ vol :: post)
        (.ok (.cons (.file (some devname) (some "raw".toList) (.geometry B_CD)) .nil)) =
      [s.take (min s.length (n - 1))]) ∧
    (∀ (B_CD : Nat) (mounts : List Volume) (devDisk : Dir),
      ∀ m ∈ callbacks B_CD n mounts devDisk,
        m.length ≤ n - 1 ∧ ∃ v ∈ mounts, ∃ p, v.Path = some p ∧ m <+: p) := by
  have hpad : n - 1 - min s.length (n - 1) = n - 1 - s.length := by omega
  have hget : ∀ b : List Char, b.length = n →
      getMountPoint (pre ++ vol :: post) devname b n =
        some (s.take (min s.length (n - 1)) ++
          NUL :: List.replicate (n - 1 - min s.length (n - 1)) NUL) := by
    intro b hb
    rw [getMountPoint_skip pre _ devname b n hpre, getMountPoint_first vol post devname b n hdev,
      if_pos ⟨hroot, hentry, hpath⟩, hs, Option.map_some', written_buffer b s n hn hb,
      List.append_assoc, replicate_NUL_snoc, take_min_length, hpad]
  have htake : ∀ c ∈ s.take (min s.length (n - 1)), c ≠ NUL :=
    fun c hc => hnul c (List.mem_of_mem_take hc)
  have hc : cstr (s.take (min s.length (n - 1)) ++
      NUL :: List.replicate (n - 1 - min s.length (n - 1)) NUL) =
      s.take (min s.length (n - 1)) := cstr_append_NUL _ _ htake
  have hlen : (s.take (min s.length (n - 1))).length = min s.length (n - 1) := by
    rw [List.length_take]
    omega
  refine ⟨⟨_, hget buf hbuf, rfl, ?_, hc, ?_, ?_, ?_, ?_⟩, ?_, ?_⟩
  · rw [List.length_append, hlen, List.length_cons, List.length_replicate]
    omega
  · rw [hc, hlen]
  · rw [hc, hlen]
    omega
  · rw [hc]
    exact ⟨s.drop (min s.length (n - 1)), List.take_append_drop _ s⟩
  · intro hle heq
    rw [hc] at heq
    have h2 := congrArg List.length heq
    rw [hlen] at h2
    omega
  · intro B_CD
    rw [callbacks_eq_emitted]
    simp only [Dir.emitted, Entries.emitted, Entry.emitted, Entry.callbackArg, mountPointFor,
      hget (List.replicate n NUL) (by simp), Option.map_some', hc]
    simp
  · intro B_CD mounts devDisk m hm
    rw [callbacks_eq_emitted, emitted_dir_eq_filterMap, List.mem_filterMap] at hm
    obtain ⟨e, _, he⟩ := hm
    obtain ⟨name, hname⟩ := callbackArg_some B_CD n mounts e m he
    obtain ⟨v, hv, p, hp, hmp⟩ := mountPointFor_some n hn mounts name m hname
    subst hmp
    have hpre1 : cstr (p.take (n - 1)) <+: p.take (n - 1) := cstr_initial_segment _
    have hpre2 : p.take (n - 1) <+: p := ⟨p.drop (n - 1), List.take_append_drop _ p⟩
    refine ⟨?_, v, hv, p, hp, hpre1.trans hpre2⟩
    have h1 := hpre1.length_le
    have h2 : (p.take (n - 1)).length ≤ n - 1 := by
      rw [List.length_take]
      omega
    omega

/-- C9 at the fixture, with a buffer of 4 characters that holds `????` before
the call: the root path `/CDROM` of the volume on `/dev/disk/cd/raw` is
delivered as `/CD`, and the scan of a tree with that node alone invokes the
callback with `/CD`. -/
theorem C9_mount_point_length_limited_witness :
    getMountPoint fxMounts "/dev/disk/cd/raw".toList "????".toList 4 =
      some ['/', 'C', 'D', NUL] ∧
    callbacks 5 4 fxMounts
      (.ok (.cons (fxFile "/dev/disk/cd/raw" "raw" (.geometry 5)) .nil)) = ["/CD".toList] :=
  have h := C9_mount_point_length_limited 4 (by decide) "/dev/disk/cd/raw".toList
    "????".toList rfl [fxVolume "/dev/disk/hd/0_0" "/boot"]
    (fxVolume "/dev/disk/cd/raw" "/CDROM")
    [fxVolume "/dev/disk/floppy/raw" "/fake", fxVolume "/dev/disk/hd/raw" "/whole"]
    "/CDROM".toList (by decide) rfl rfl rfl rfl rfl (by decide)
  ⟨by
    obtain ⟨out, h1, h2, _⟩ := h.1
    rw [h2] at h1
    exact h1, h.2.1 5⟩

/-- C10: `getMountPoint` decides on the first volume whose device name equals
`devname`.  With no such volume before `vol` and `vol` being one, the result is
what the list holding `vol` alone gives, whatever volumes follow: `NULL` unless
the root directory, its entry and its path all resolve, else the buffer holding
the root path (the root path itself, read as a C string, when it is shorter than
the buffer).  With no volume of that device name the result is `NULL`. -/
theorem C10_first_matching_volume_decides (devname : CString) (buf : List Char) (n : Nat)
    (pre : List Volume) (vol : Volume) (post : List Volume)
    (hpre : ∀ v ∈ pre, v.device_name ≠ devname) (hdev : vol.device_name = devname) :
    getMountPoint (pre ++ vol :: post) devname buf n = getMountPoint [vol] devname buf n ∧
    (∀ later : List Volume, getMountPoint (pre ++ vol :: later) devname buf n =
      getMountPoint (pre ++ vol :: post) devname buf n) ∧
    getMountPoint (pre ++ vol :: post) devname buf n =
      (if vol.GetRootDirectory = true ∧ vol.GetEntry = true ∧ vol.GetPath = true then
        vol.Path.map (fun str => (strncpy buf str (n - 1)).set (n - 1) NUL)
      else none) ∧
    (∀ s : CString, vol.GetRootDirectory = true → vol.GetEntry = true → vol.GetPath = true →
      vol.Path = some s → (∀ c ∈ s, c ≠ NUL) → s.length < n → buf.length = n →
      (getMountPoint (pre ++ vol :: post) devname buf n).map cstr = some s) ∧
    (∀ mounts : List Volume, (∀ v ∈ mounts, v.device_name ≠ devname) →
      getMountPoint mounts devname buf n = none) := by
  have hfirst : ∀ later : List Volume, getMountPoint (pre ++ vol :: later) devname buf n =
      (if vol.GetRootDirectory = true ∧ vol.GetEntry = true ∧ vol.GetPath = true then
        vol.Path.map (fun str => (strncpy buf str (n - 1)).set (n - 1) NUL)
      else none) := by
    intro later
    rw [getMountPoint_skip pre _ devname buf n hpre, getMountPoint_first vol later devname buf n hdev]
  refine ⟨?_, ?_, hfirst post, ?_, ?_⟩
  · rw [hfirst post, getMountPoint_first vol [] devname buf n hdev]
  · intro later
    rw [hfirst later, hfirst post]
  · intro s hroot hentry hpath hs hnul hlt hbuf
    rw [hfirst post, if_pos ⟨hroot, hentry, hpath⟩, hs, Option.map_some', Option.map_some',
      written_buffer buf s n (by omega) hbuf, List.append_assoc, replicate_NUL_snoc,
      List.take_of_length_le (by omega), cstr_append_NUL s _ hnul]
  · intro mounts hno
    have h := getMountPoint_skip mounts [] devname buf n hno
    rw [List.append_nil] at h
    rw [h]
    rfl

/-- C10 at the fixture `fxTwice`: two volumes carry the device name
`/dev/disk/cd/raw`; the root directory of the first does not resolve, so the
result is `NULL` although the second one resolves. -/
theorem C10_first_matching_volume_decides_witness :
    getMountPoint fxTwice "/dev/disk/cd/raw".toList (List.replicate 256 NUL) 256 = none ∧
    getMountPoint [fxVolume "/dev/disk/cd/raw" "/second"] "/dev/disk/cd/raw".toList
      (List.replicate 256 NUL) 256 ≠ none :=
  ⟨((C10_first_matching_volume_decides "/dev/disk/cd/raw".toList (List.replicate 256 NUL) 256
      [fxVolume "/dev/disk/hd/0_0" "/boot"]
      ⟨"/dev/disk/cd/raw".toList, false, true, true, some "/first".toList⟩
      [fxVolume "/dev/disk/cd/raw" "/second"] (by decide) rfl).2.2.1).trans (by decide),
   by decide⟩

/-! ## The base directory -/

theorem scanImages_first (B_APP_IMAGE : Nat) (pre : List image_info) (app : image_info)
    (post : List image_info) (hpre : ∀ i ∈ pre, i.type ≠ B_APP_IMAGE)
    (happ : app.type = B_APP_IMAGE) (uninit : image_info) :
    scanImages B_APP_IMAGE uninit (pre ++ app :: post) = app := by
  induction pre generalizing uninit with
  | nil => simp [scanImages, happ]
  | cons i pre ih =>
    have hi : i.type ≠ B_APP_IMAGE := hpre i (by simp)
    rw [List.cons_append]
    simp only [scanImages, hi, if_false]
    exact ih (fun x hx => hpre x (by simp [hx])) i

theorem dropWhile_append_stop (f : Char → Bool) (l : List Char) (a : Char) (r : List Char)
    (hl : ∀ x ∈ l, f x = true) (ha : f a = false) :
    (l ++ a :: r).dropWhile f = a :: r := by
  induction l with
  | nil => simp [List.dropWhile, ha]
  | cons x l ih =>
    have hx : f x = true := hl x (by simp)
    rw [List.cons_append]
    simp only [List.dropWhile, hx]
    exact ih (fun y hy => hl y (by simp [hy]))

theorem GetParent_strips_last (dir base : CString) (hbase : base ≠ [])
    (hslash : ∀ c ∈ base, c ≠ '/') :
    BPath.GetParent (dir ++ '/' :: base) = some (if dir = [] then ['/'] else dir) := by
  have hlen : ¬ (dir ++ '/' :: base).length ≤ 1 := by
    cases base with
    | nil => exact absurd rfl hbase
    | cons b bs => simp; omega
  have hrev : (dir ++ '/' :: base).reverse = base.reverse ++ '/' :: dir.reverse := by
    simp
  have hdrop : (base.reverse ++ '/' :: dir.reverse).dropWhile (fun c => c != '/') =
      '/' :: dir.reverse := by
    apply dropWhile_append_stop
    · intro x hx
      have := hslash x (List.mem_reverse.mp hx)
      simp [this]
    · simp
  unfold BPath.GetParent
  rw [if_neg hlen, hrev, hdrop]
  simp

/-- C6: when the image records of the process hold an application image (type
`B_APP_IMAGE`, the first of that type) whose name resolves to the absolute path
`p = dir/base`, `base` being the last component, then for every `argv0` the
routine returns a copy of the containing directory (`dir`, or `/` when `p` lies
in the root directory) if the allocation of `strlen + 1` bytes succeeds, and
`NULL` if it fails. -/
theorem C6_base_dir_is_parent_of_app_image (B_APP_IMAGE : Nat) (pre : List image_info)
    (app : image_info) (post : List image_info) (uninit : image_info)
    (resolve : CString → Option CString) (Malloc : Nat → Bool) (argv0 : CString)
    (p dir base : CString)
    (hpre : ∀ i ∈ pre, i.type ≠ B_APP_IMAGE) (happ : app.type = B_APP_IMAGE)
    (hres : resolve app.name = some p)
    (hp : p = dir ++ '/' :: base) (hbase : base ≠ []) (hslash : ∀ c ∈ base, c ≠ '/') :
    (Malloc ((if dir = [] then ['/'] else dir).length + 1) = true →
      __PHYSFS_platformCalcBaseDir B_APP_IMAGE (pre ++ app :: post) uninit resolve Malloc argv0 =
        .retval (if dir = [] then ['/'] else dir)) ∧
    (Malloc ((if dir = [] then ['/'] else dir).length + 1) = false →
      __PHYSFS_platformCalcBaseDir B_APP_IMAGE (pre ++ app :: post) uninit resolve Malloc argv0 =
        .null .ERR_OUT_OF_MEMORY) := by
  subst hp
  have hscan := scanImages_first B_APP_IMAGE pre app post hpre happ uninit
  have hpar := GetParent_strips_last dir base hbase hslash
  constructor
  · intro hm
    simp only [__PHYSFS_platformCalcBaseDir, hscan, hres, hpar, hm]
    simp
  · intro hm
    simp only [__PHYSFS_platformCalcBaseDir, hscan, hres, hpar, hm]
    simp

/-- C6 at the fixture: the application image resolves to `/apps/demo/bin/demo`;
the routine returns `/apps/demo/bin` when the allocation succeeds and `NULL`
when it fails. -/
theorem C6_base_dir_is_parent_of_app_image_witness :
    __PHYSFS_platformCalcBaseDir 1 fxImages ⟨0, []⟩ some (fun _ => true)
      "/apps/demo/bin/demo".toList = .retval "/apps/demo/bin".toList ∧
    __PHYSFS_platformCalcBaseDir 1 fxImages ⟨0, []⟩ some (fun _ => false)
      "/apps/demo/bin/demo".toList = .null .ERR_OUT_OF_MEMORY :=
  ⟨(C6_base_dir_is_parent_of_app_image 1 [⟨2, "/system/lib/libroot.so".toList⟩]
      ⟨1, "/apps/demo/bin/demo".toList⟩ [⟨3, "/apps/demo/add-ons/plugin".toList⟩] ⟨0, []⟩
      some (fun _ => true) "/apps/demo/bin/demo".toList "/apps/demo/bin/demo".toList
      "/apps/demo/bin".toList "demo".toList (by decide) rfl rfl rfl (by decide)
      (by decide)).1 rfl,
   (C6_base_dir_is_parent_of_app_image 1 [⟨2, "/system/lib/libroot.so".toList⟩]
      ⟨1, "/apps/demo/bin/demo".toList⟩ [⟨3, "/apps/demo/add-ons/plugin".toList⟩] ⟨0, []⟩
      some (fun _ => false) "/apps/demo/bin/demo".toList "/apps/demo/bin/demo".toList
      "/apps/demo/bin".toList "demo".toList (by decide) rfl rfl rfl (by decide)
      (by decide)).2 rfl⟩

/-! ## The mutex -/

theorem grab_by_holder (t k : Nat) :
    __PHYSFS_platformGrabMutex t ⟨some t, k⟩ = .returns (1, ⟨some t, k + 1⟩) := by
  simp [__PHYSFS_platformGrabMutex, BLocker.Lock]

theorem grab_free (t : Nat) :
    __PHYSFS_platformGrabMutex t ⟨none, 0⟩ = .returns (1, ⟨some t, 1⟩) := by
  simp [__PHYSFS_platformGrabMutex, BLocker.Lock]

theorem grabTimes_by_holder (t : Nat) : ∀ k j : Nat,
    grabTimes t k ⟨some t, j⟩ = .returns (List.replicate k 1, ⟨some t, j + k⟩)
  | 0, j => by simp [grabTimes]
  | k + 1, j => by
    simp only [grabTimes, grab_by_holder, grabTimes_by_holder t k (j + 1)]
    simp [List.replicate_succ]
    omega

theorem release_by_holder (t j : Nat) :
    __PHYSFS_platformReleaseMutex t ⟨some t, j⟩ =
      if j ≤ 1 then ⟨none, 0⟩ else ⟨some t, j - 1⟩ := by
  simp [__PHYSFS_platformReleaseMutex, BLocker.Unlock]

theorem releaseTimes_by_holder (t : Nat) : ∀ k j : Nat, k ≤ j → 0 < j →
    releaseTimes t k ⟨some t, j⟩ = if k = j then ⟨none, 0⟩ else ⟨some t, j - k⟩
  | 0, j, _, hj => by
    have h0 : ¬ (0 = j) := by omega
    simp [releaseTimes, h0]
  | k + 1, j, hk, hj => by
    simp only [releaseTimes, release_by_holder]
    by_cases h1 : j ≤ 1
    · have hj1 : j = 1 := by omega
      have hk0 : k = 0 := by omega
      subst hj1 hk0
      simp [releaseTimes]
    · rw [if_neg h1, releaseTimes_by_holder t k (j - 1) (by omega) (by omega)]
      by_cases h2 : k = j - 1
      · have h3 : k + 1 = j := by omega
        rw [if_pos h2, if_pos h3]
      · have h3 : ¬ (k + 1 = j) := by omega
        have h4 : j - 1 - k = j - (k + 1) := by omega
        rw [if_neg h2, if_neg h3, h4]

/-- C7: the mutex is reentrant.  For every thread `t`, on a mutex made by
`__PHYSFS_platformCreateMutex`, grab, grab, release, release by `t`: both grabs
return 1 without blocking, the hold count goes 1, 2, 1, 0, a grab by another
thread blocks after the first release and returns 1 after the second.  In
general `n >= 1` grabs by `t` all return 1 and leave the count at `n`, and
after `k <= n` releases the count is `n - k`, the lock being free, and a grab
by another thread not blocking, exactly when `k = n`. -/
theorem C7_mutex_is_reentrant (t : Nat) :
    (__PHYSFS_platformGrabMutex t __PHYSFS_platformCreateMutex = .returns (1, ⟨some t, 1⟩) ∧
      __PHYSFS_platformGrabMutex t ⟨some t, 1⟩ = .returns (1, ⟨some t, 2⟩) ∧
      __PHYSFS_platformReleaseMutex t ⟨some t, 2⟩ = ⟨some t, 1⟩ ∧
      __PHYSFS_platformReleaseMutex t ⟨some t, 1⟩ = ⟨none, 0⟩ ∧
      (∀ u : Nat, u ≠ t → __PHYSFS_platformGrabMutex u ⟨some t, 1⟩ = .blocks) ∧
      (∀ u : Nat, __PHYSFS_platformGrabMutex u ⟨none, 0⟩ = .returns (1, ⟨some u, 1⟩))) ∧
    (∀ n : Nat, 0 < n →
      grabTimes t n __PHYSFS_platformCreateMutex =
        .returns (List.replicate n 1, ⟨some t, n⟩) ∧
      ∀ k : Nat, k ≤ n →
        (releaseTimes t k ⟨some t, n⟩).count = n - k ∧
        ((releaseTimes t k ⟨some t, n⟩).owner = none ↔ k = n) ∧
        (∀ u : Nat, u ≠ t →
          (__PHYSFS_platformGrabMutex u (releaseTimes t k ⟨some t, n⟩) = .blocks ↔ k < n))) := by
  refine ⟨⟨grab_free t, grab_by_holder t 1, ?_, ?_, ?_, ?_⟩, ?_⟩
  · simp [release_by_holder]
  · simp [release_by_holder]
  · intro u hu
    simp [__PHYSFS_platformGrabMutex, BLocker.Lock, hu.symm]
  · intro u
    exact grab_free u
  · intro n hn
    constructor
    · cases n with
      | zero => omega
      | succ m =>
        simp only [grabTimes, __PHYSFS_platformCreateMutex, grab_free, grabTimes_by_holder t m 1]
        simp [List.replicate_succ]
        omega
    · intro k hk
      rw [releaseTimes_by_holder t k n hk hn]
      by_cases h : k = n
      · subst h
        refine ⟨by simp, by simp, ?_⟩
        intro u _
        simp [__PHYSFS_platformGrabMutex, BLocker.Lock]
      · have hlt : k < n := by omega
        refine ⟨by simp [h], by simp [h], ?_⟩
        intro u hu
        simp [h, hlt, __PHYSFS_platformGrabMutex, BLocker.Lock, hu.symm]

/-- C7 for thread 7 and three nested grabs: the grabs return 1, 1, 1; after two
releases thread 8 still blocks, after the third it gets the lock. -/
theorem C7_mutex_is_reentrant_witness :
    grabTimes 7 3 __PHYSFS_platformCreateMutex = .returns ([1, 1, 1], ⟨some 7, 3⟩) ∧
    __PHYSFS_platformGrabMutex 8 (releaseTimes 7 2 ⟨some 7, 3⟩) = .blocks ∧
    (releaseTimes 7 3 ⟨some 7, 3⟩).owner = none :=
  ⟨((C7_mutex_is_reentrant 7).2 3 (by decide)).1,
   ((((C7_mutex_is_reentrant 7).2 3 (by decide)).2 2 (by decide)).2.2 8 (by decide)).mpr
     (by decide),
   ((((C7_mutex_is_reentrant 7).2 3 (by decide)).2 3 (by decide)).2.1).mpr rfl⟩

/-! ## The allocator hook -/

/-- C8: for every allocator table `a`, `__PHYSFS_platformSetDefaultAllocator(a)`
returns 0 and leaves the table as it was, entry by entry; the call has no other
output (the model has no state besides the table). -/
theorem C8_allocator_hook_declines (Fn : Type) (a : PHYSFS_Allocator Fn) :
    (__PHYSFS_platformSetDefaultAllocator a).1 = 0 ∧
    (__PHYSFS_platformSetDefaultAllocator a).2 = a ∧
    (__PHYSFS_platformSetDefaultAllocator a).2.Malloc = a.Malloc ∧
    (__PHYSFS_platformSetDefaultAllocator a).2.Realloc = a.Realloc ∧
    (__PHYSFS_platformSetDefaultAllocator a).2.Free = a.Free :=
  ⟨rfl, rfl, rfl, rfl, rfl⟩

end PhysFS.BeOS
